import Mathlib

/-!
Verification development for the smash-kill-clipper core pipeline:
the per-frame scorer (`detectGlobalRed`), the temporal clusterer
(`deduplicateKillScreens` / `analyzeDetectionClusters`), the segment
planner (`createVideoSegments`) and the generation pass of
`generateVideo`.  Machine doubles are modelled as rationals and pixel
buffers as lists of natural-number bytes (a JavaScript `Buffer` read out
of range yields a value that fails every strict comparison, which the
model reflects by defaulting such reads to `0`).
-/

/-- Mirror of the `KillScreenTimestamp` record of `types/index.ts`. -/
structure KST where
  frameNumber : ℕ
  timeInSeconds : ℚ
  confidence : ℚ
deriving DecidableEq, Repr

/-- Mirror of the `VideoSegment` record of `types/index.ts`. -/
structure VideoSegment where
  startTime : ℚ
  endTime : ℚ
  duration : ℚ
deriving DecidableEq, Repr

/-- Mirror of the `DetectionResult` record of `types/index.ts`. -/
structure DetectionResult where
  isKillScreen : Bool
  confidence : ℚ
  frameNumber : ℕ
deriving DecidableEq, Repr

/-- Time ordering on samples, the comparator `(a, b) => a.timeInSeconds - b.timeInSeconds`
passed to `Array.prototype.sort` in `utils/file.ts`. -/
def timeLE (a b : KST) : Prop := a.timeInSeconds ≤ b.timeInSeconds

instance : DecidableRel timeLE := fun a b =>
  inferInstanceAs (Decidable (a.timeInSeconds ≤ b.timeInSeconds))

instance : IsTotal KST timeLE := ⟨fun a b => le_total a.timeInSeconds b.timeInSeconds⟩

instance : IsTrans KST timeLE := ⟨fun _ _ _ h h2 => le_trans h h2⟩

/-- The time sort `[...killScreens].sort((a, b) => a.timeInSeconds - b.timeInSeconds)`
applied to a private copy of the input in both clustering functions. -/
def sortTime (ks : List KST) : List KST := List.insertionSort timeLE ks

/-- The greedy merge loop of `deduplicateKillScreens`: `last` is the current
cluster endTime carrier (the most recently appended sample), `cur` the current
cluster contents in order.  A new cluster starts exactly when the next sample
is more than `win` seconds after the current cluster endTime. -/
def clusterGo (win : ℚ) (last : KST) (cur : List KST) : List KST → List (List KST)
  | [] => [cur]
  | k :: rest =>
    if win < k.timeInSeconds - last.timeInSeconds then
      cur :: clusterGo win k [k] rest
    else
      clusterGo win k (cur ++ [k]) rest

/-- Step 2 of `deduplicateKillScreens`: the greedy interval-merge partition of the
time-sorted samples, parameterised by the configured merge window. -/
def dedupClusters (win : ℚ) (ks : List KST) : List (List KST) :=
  match sortTime ks with
  | [] => []
  | k :: rest => clusterGo win k [k] rest

/-- The reducer `(best, current) => current.confidence > best.confidence ? current : best`
used for representative selection. -/
def chooseBetter (best current : KST) : KST :=
  if best.confidence < current.confidence then current else best

/-- The continuity bonus `Math.min(0.1, cluster.detections.length * 0.02)`. -/
def continuityBonus (size : ℕ) : ℚ := min (1/10) (size * (2/100))

/-- Per-cluster processing of `deduplicateKillScreens`: clusters below the
minimum size are dropped; a surviving cluster yields its highest-confidence
sample (first strictly-greater comparison wins) with the capped continuity
bonus added to its confidence. -/
def clusterPick (minSize : ℕ) (c : List KST) : Option KST :=
  match c with
  | [] => none
  | h :: t =>
    if minSize ≤ (h :: t).length then
      let rep := t.foldl chooseBetter h
      some { rep with confidence := min 1 (rep.confidence + continuityBonus (h :: t).length) }
    else none

/-- Mirror of `deduplicateKillScreens` of `utils/file.ts` (source defaults:
`mergeWindowSeconds = 2`, `minConsecutiveDetections = 2`). -/
def deduplicateKillScreens (ks : List KST) (win : ℚ) (minSize : ℕ) : List KST :=
  if ks = [] then []
  else (dedupClusters win ks).filterMap (clusterPick minSize)

/-- The cluster loop of `analyzeDetectionClusters`, which is the same loop as
`clusterGo` but with the merge window hard-coded to the literal `2`. -/
def analyzeGo (last : KST) (cur : List KST) : List KST → List (List KST)
  | [] => [cur]
  | k :: rest =>
    if 2 < k.timeInSeconds - last.timeInSeconds then
      cur :: analyzeGo k [k] rest
    else
      analyzeGo k (cur ++ [k]) rest

/-- The partition computed inside `analyzeDetectionClusters`. -/
def analyzeClusters (ks : List KST) : List (List KST) :=
  match sortTime ks with
  | [] => []
  | k :: rest => analyzeGo k [k] rest

/-- Result record of `analyzeDetectionClusters` (clusters reduced to their
sample lists; the derived startTime/endTime/peak/average fields of the
transient cluster record play no role in any output studied here). -/
structure ClusterStats where
  totalClusters : ℕ
  averageClusterSize : ℚ
  maxClusterSize : ℕ
  clusters : List (List KST)
deriving DecidableEq, Repr

/-- Mirror of `analyzeDetectionClusters` of `utils/file.ts`.  `Math.max(...)`
over the (nonempty) size list is modelled by a `max` fold from `0`. -/
def analyzeDetectionClusters (ks : List KST) : ClusterStats :=
  if ks = [] then ⟨0, 0, 0, []⟩
  else
    let clusters := analyzeClusters ks
    ⟨clusters.length,
     ((clusters.map fun c => (c.length : ℚ)).sum) / clusters.length,
     (clusters.map List.length).foldl max 0,
     clusters⟩

/-- A heap of arrays, for the aliasing behaviour of the two clustering
functions: `[...ks]` allocates a fresh array and `.sort` mutates only that
fresh array.  References are indices into the store. -/
abbrev Store : Type := List (List KST)

/-- Store-passing version of `deduplicateKillScreens`: the spread copy
`[...killScreens]` allocates a new array at the end of the store, `.sort`
sorts that private copy in place, and the remainder of the function only
reads the copy and writes to function-local arrays. -/
def deduplicateKillScreensS (s : Store) (r : ℕ) (win : ℚ) (minSize : ℕ) :
    Store × List KST :=
  let ks := List.getD s r []
  if ks = [] then (s, [])
  else
    let s2 := s ++ [sortTime ks]
    let sorted := List.getD s2 s.length []
    (s2,
      (match sorted with
       | [] => []
       | k :: rest => clusterGo win k [k] rest).filterMap (clusterPick minSize))

/-- Store-passing version of `analyzeDetectionClusters`, with the same
copy-then-sort-in-place allocation discipline. -/
def analyzeDetectionClustersS (s : Store) (r : ℕ) : Store × ClusterStats :=
  let ks := List.getD s r []
  if ks = [] then (s, ⟨0, 0, 0, []⟩)
  else
    let s2 := s ++ [sortTime ks]
    let sorted := List.getD s2 s.length []
    let clusters :=
      match sorted with
      | [] => []
      | k :: rest => analyzeGo k [k] rest
    (s2,
      ⟨clusters.length,
       ((clusters.map fun c => (c.length : ℚ)).sum) / clusters.length,
       (clusters.map List.length).foldl max 0,
       clusters⟩)

/-- Dominant-pixel test of `detectGlobalRed`: `r > g && r > b && r > 100`
at the pixel `(x, y)` of a row-major buffer with `c` channels.  An
out-of-range `Buffer` read fails every strict comparison, modelled by the
default byte `0`. -/
def redAt (data : List ℕ) (w c x y : ℕ) : Bool :=
  decide (data.getD ((y * w + x) * c + 1) 0 < data.getD ((y * w + x) * c) 0 ∧
          data.getD ((y * w + x) * c + 2) 0 < data.getD ((y * w + x) * c) 0 ∧
          100 < data.getD ((y * w + x) * c) 0)

/-- The dominance margin `r - Math.max(g, b)` accumulated for dominant
pixels only (where it is positive, so truncated subtraction is exact). -/
def redIntensityAt (data : List ℕ) (w c x y : ℕ) : ℕ :=
  data.getD ((y * w + x) * c) 0 -
    max (data.getD ((y * w + x) * c + 1) 0) (data.getD ((y * w + x) * c + 2) 0)

/-- Pixel coordinates of grid cell `(gX, gY)` of the 3×3 partition:
`x` from `gX*cellWidth` to `min (gX*cellWidth + cellWidth) width`, with
`cellWidth = Math.floor(width / 3)`, and likewise for `y`. -/
def cellPixels (w h gX gY : ℕ) : Finset (ℕ × ℕ) :=
  Finset.Ico (gX * (w / 3)) (min (gX * (w / 3) + w / 3) w) ×ˢ
    Finset.Ico (gY * (h / 3)) (min (gY * (h / 3) + h / 3) h)

/-- Count of dominant pixels in one grid cell (`cellRedPixels`). -/
def cellRedPixels (data : List ℕ) (w h c gX gY : ℕ) : ℕ :=
  ((cellPixels w h gX gY).filter fun p => redAt data w c p.1 p.2).card

/-- Count of all pixels visited in one grid cell (`cellTotalPixels`). -/
def cellTotalPixels (w h gX gY : ℕ) : ℕ := (cellPixels w h gX gY).card

/-- Summed dominance margin of the dominant pixels of one cell
(`cellRedIntensity`). -/
def cellRedIntensity (data : List ℕ) (w h c gX gY : ℕ) : ℕ :=
  ∑ p in (cellPixels w h gX gY).filter fun p => redAt data w c p.1 p.2,
    redIntensityAt data w c p.1 p.2

/-- The 3×3 grid of cell indices. -/
def grid : Finset (ℕ × ℕ) := Finset.range 3 ×ˢ Finset.range 3

/-- `totalRedPixels`, accumulated over the nine grid cells. -/
def totalRedPixels (data : List ℕ) (w h c : ℕ) : ℕ :=
  ∑ g in grid, cellRedPixels data w h c g.1 g.2

/-- Sum of the `redIntensities` array, accumulated over the nine cells. -/
def totalRedIntensity (data : List ℕ) (w h c : ℕ) : ℕ :=
  ∑ g in grid, cellRedIntensity data w h c g.1 g.2

/-- Per-cell dominant fraction, `cellTotalPixels > 0 ? cellRedPixels /
cellTotalPixels : 0` (source name `cellRedRatio`). -/
def cellRedFrac (data : List ℕ) (w h c gX gY : ℕ) : ℚ :=
  if 0 < cellTotalPixels w h gX gY then
    (cellRedPixels data w h c gX gY : ℚ) / (cellTotalPixels w h gX gY : ℚ)
  else 0

/-- Number of grid cells whose dominant fraction exceeds `0.3`
(`redCellCount`). -/
def redCellCount (data : List ℕ) (w h c : ℕ) : ℕ :=
  (grid.filter fun g => (3 : ℚ)/10 < cellRedFrac data w h c g.1 g.2).card

/-- `globalRedCoverage = totalRedPixels / totalPixels`. -/
def globalRedCoverage (data : List ℕ) (w h c : ℕ) : ℚ :=
  (totalRedPixels data w h c : ℚ) / ((w * h : ℕ) : ℚ)

/-- `globalRedCoverageScore = Math.min(1.0, globalRedCoverage * 2)`. -/
def globalRedCoverageScore (data : List ℕ) (w h c : ℕ) : ℚ :=
  min 1 (globalRedCoverage data w h c * 2)

/-- `redUniformity = redCellCount / 9`, used unchanged as
`redUniformityScore`. -/
def redUniformityScore (data : List ℕ) (w h c : ℕ) : ℚ :=
  (redCellCount data w h c : ℚ) / 9

/-- Average dominance margin over the dominant pixels,
`redIntensities.length > 0 ? sum / length : 0`. -/
def avgRedIntensity (data : List ℕ) (w h c : ℕ) : ℚ :=
  if 0 < totalRedPixels data w h c then
    (totalRedIntensity data w h c : ℚ) / (totalRedPixels data w h c : ℚ)
  else 0

/-- `redIntensityScore = Math.min(1.0, avgRedIntensity / 100)`. -/
def redIntensityScore (data : List ℕ) (w h c : ℕ) : ℚ :=
  min 1 (avgRedIntensity data w h c / 100)

/-- `nonRedArea = 1 - globalRedCoverage`. -/
def nonRedArea (data : List ℕ) (w h c : ℕ) : ℚ :=
  1 - globalRedCoverage data w h c

/-- `nonRedAreaScore = Math.max(0, 1 - nonRedArea * 3)`. -/
def nonRedAreaScore (data : List ℕ) (w h c : ℕ) : ℚ :=
  max 0 (1 - nonRedArea data w h c * 3)

/-- The final weighted confidence of `detectGlobalRed`. -/
def killScore (data : List ℕ) (w h c : ℕ) : ℚ :=
  globalRedCoverageScore data w h c * (4/10) +
  redUniformityScore data w h c * (3/10) +
  redIntensityScore data w h c * (2/10) +
  nonRedAreaScore data w h c * (1/10)

/-- Result of one scoring call, reduced to the fields the detector reads. -/
structure GlobalRedResult where
  isKillScreen : Bool
  killScore : ℚ
deriving DecidableEq, Repr

/-- Mirror of `detectGlobalRed`: the classification threshold is
`killScore > 0.8`. -/
def detectGlobalRed (data : List ℕ) (w h c : ℕ) : GlobalRedResult :=
  ⟨decide ((8 : ℚ)/10 < killScore data w h c), killScore data w h c⟩

/-- Mirror of `KillScreenDetector.detectKillScreen` of
`detection/detector.ts`: a successful scoring call is passed through; a
failed one (the `catch` branch) becomes confidence `0`, non-event. -/
def detectKillScreen (scoring : Except String GlobalRedResult) (frameNumber : ℕ) :
    DetectionResult :=
  match scoring with
  | Except.ok d => ⟨d.isKillScreen, d.killScore, frameNumber⟩
  | Except.error _ => ⟨false, 0, frameNumber⟩

/-- Mirror of `VideoProcessor.createVideoSegments` of `video/processor.ts`. -/
def createVideoSegments (timestamps : List KST) (beforeSeconds afterSeconds : ℚ) :
    List VideoSegment :=
  timestamps.map fun t =>
    ⟨max 0 (t.timeInSeconds - beforeSeconds),
     t.timeInSeconds + afterSeconds,
     beforeSeconds + afterSeconds⟩

/-- Nested `clusterInfo` metadata of a persisted `DetectionEntry`. -/
structure ClusterInfo where
  originalDetections : ℕ
  timeRangeStart : ℚ
  timeRangeEnd : ℚ
deriving DecidableEq, Repr

/-- Mirror of the persisted `DetectionEntry` record of `types/detection.ts`. -/
structure DetectionEntry where
  id : ℕ
  timeInSeconds : ℚ
  frameNumber : ℕ
  confidence : ℚ
  enabled : Bool
  note : Option String
  clusterInfo : Option ClusterInfo
deriving DecidableEq, Repr

/-- The enabled-record filter of `generateVideo`
(`project.detections.filter(d => d.enabled)`). -/
def enabledDetections (detections : List DetectionEntry) : List DetectionEntry :=
  detections.filter fun d => d.enabled

/-- The segment list built by a generation run of `generateVideo`: one
`VideoSegment` per enabled detection, in order. -/
def generateSegments (detections : List DetectionEntry) (beforeSeconds afterSeconds : ℚ) :
    List VideoSegment :=
  (enabledDetections detections).map fun d =>
    ⟨max 0 (d.timeInSeconds - beforeSeconds),
     d.timeInSeconds + afterSeconds,
     beforeSeconds + afterSeconds⟩

/-- Separation by more than `win` seconds, the cluster-boundary condition. -/
def sepGT (win : ℚ) (a b : KST) : Prop := win < b.timeInSeconds - a.timeInSeconds

/-- C2: on the samples (t=100.0, c=0.82), (t=100.2, c=0.85), (t=100.4, c=0.79)
(frames 500, 501, 502 at 5 fps) with a 2-second merge window and minimum
cluster size 2, `deduplicateKillScreens` returns exactly one record: the
t=100.2 sample of frame 501, with confidence
min(1, 0.85 + min(0.1, 3·0.02)) = 0.91. -/
theorem claim_C2_concrete_cluster :
    deduplicateKillScreens
      [⟨500, 100, 82/100⟩, ⟨501, 1002/10, 85/100⟩, ⟨502, 1004/10, 79/100⟩] 2 2
      = [⟨501, 1002/10, 91/100⟩] := by
  norm_num [deduplicateKillScreens, dedupClusters, sortTime, List.insertionSort,
    List.orderedInsert, timeLE, clusterGo, clusterPick, chooseBetter,
    continuityBonus, List.filterMap_cons, List.foldl, List.cons_ne_nil]

/-- C7: for an event at index `i` of the input list, the planned segment has
`startTime = max(0, timestamp − lead)`, `endTime = timestamp + trail` and
`duration = lead + trail` (the duration field is `lead + trail` even when the
start is clamped), and the clamped start is never negative. -/
theorem claim_C7_segment_planner (ts : List KST) (b a : ℚ) (i : ℕ)
    (hi : i < ts.length)
    (ht : 0 ≤ (ts.get ⟨i, hi⟩).timeInSeconds) (hb : 0 ≤ b) (ha : 0 ≤ a) :
    ∃ hl : i < (createVideoSegments ts b a).length,
      (createVideoSegments ts b a).get ⟨i, hl⟩ =
        ⟨max 0 ((ts.get ⟨i, hi⟩).timeInSeconds - b),
         (ts.get ⟨i, hi⟩).timeInSeconds + a, b + a⟩ ∧
      0 ≤ ((createVideoSegments ts b a).get ⟨i, hl⟩).startTime := by
  have hl : i < (createVideoSegments ts b a).length := by
    simpa [createVideoSegments] using hi
  refine ⟨hl, ?_, ?_⟩
  · simp [createVideoSegments, List.get_eq_getElem, List.getElem_map]
  · simp [createVideoSegments, List.get_eq_getElem, List.getElem_map]

/-- Witness for C7 at the spec's own example: timestamp 1.0, lead 3, trail 2
give startTime 0 (clamped), endTime 3.0, duration 5.0. -/
theorem claim_C7_segment_planner_witness :
    ∃ hl : 0 < (createVideoSegments [⟨0, 1, 1⟩] 3 2).length,
      (createVideoSegments [⟨0, 1, 1⟩] 3 2).get ⟨0, hl⟩ = ⟨0, 3, 5⟩ := by
  obtain ⟨hl, heq, -⟩ :=
    claim_C7_segment_planner [⟨0, 1, 1⟩] 3 2 0 (by norm_num) (by norm_num)
      (by norm_num) (by norm_num)
  refine ⟨hl, heq.trans ?_⟩
  show VideoSegment.mk _ _ _ = _
  norm_num

/-- C9: disabling one enabled record removes exactly its segment from the
generation pass: with the record enabled the segment list is the surrounding
segments with its segment in between, and with it disabled the list is the
surrounding segments alone, unchanged and in the same order. -/
theorem claim_C9_disable_removes_exactly (l₁ l₂ : List DetectionEntry)
    (d : DetectionEntry) (b a : ℚ) (hd : d.enabled = true) :
    generateSegments (l₁ ++ d :: l₂) b a =
      generateSegments l₁ b a ++
        ⟨max 0 (d.timeInSeconds - b), d.timeInSeconds + a, b + a⟩ ::
          generateSegments l₂ b a ∧
    generateSegments (l₁ ++ { d with enabled := false } :: l₂) b a =
      generateSegments l₁ b a ++ generateSegments l₂ b a := by
  constructor
  · simp [generateSegments, enabledDetections, List.filter_append,
      List.filter_cons, hd]
  · simp [generateSegments, enabledDetections, List.filter_append,
      List.filter_cons]

/-- Witness for C9 on a concrete one-record list. -/
theorem claim_C9_disable_removes_exactly_witness :
    (⟨1, 10, 50, 9/10, true, none, none⟩ : DetectionEntry).enabled = true ∧
    (generateSegments [⟨1, 10, 50, 9/10, true, none, none⟩] 3 2 =
      generateSegments [] 3 2 ++
        ⟨max 0 ((10 : ℚ) - 3), (10 : ℚ) + 2, (3 : ℚ) + 2⟩ ::
          generateSegments [] 3 2 ∧
      generateSegments
          [{ (⟨1, 10, 50, 9/10, true, none, none⟩ : DetectionEntry) with
              enabled := false }] 3 2 =
        generateSegments [] 3 2 ++ generateSegments [] 3 2) :=
  ⟨rfl, by
    simpa using
      claim_C9_disable_removes_exactly [] [] ⟨1, 10, 50, 9/10, true, none, none⟩
        3 2 rfl⟩

/-- C10: neither clustering function mutates the array its input reference
points at: both allocate a spread copy, sort only the copy, and return the
same value the pure functions compute on the referenced list. -/
theorem claim_C10_no_input_mutation (s : Store) (r : ℕ) (win : ℚ)
    (minSize : ℕ) (hr : r < s.length) :
    (deduplicateKillScreensS s r win minSize).1.getD r [] = s.getD r [] ∧
    (deduplicateKillScreensS s r win minSize).2 =
      deduplicateKillScreens (s.getD r []) win minSize ∧
    (analyzeDetectionClustersS s r).1.getD r [] = s.getD r [] ∧
    (analyzeDetectionClustersS s r).2 = analyzeDetectionClusters (s.getD r []) := by
  have hget : (s ++ [sortTime (s.getD r [])]).getD s.length [] =
      sortTime (s.getD r []) := by
    simp [List.getD_eq_getElem?_getD, List.getElem?_append_right]
  have hkeep : (s ++ [sortTime (s.getD r [])]).getD r [] = s.getD r [] :=
    List.getD_append _ _ _ _ hr
  by_cases he : s.getD r [] = []
  · refine ⟨?_, ?_, ?_, ?_⟩ <;>
      simp only [deduplicateKillScreensS, analyzeDetectionClustersS,
        deduplicateKillScreens, analyzeDetectionClusters, he, if_pos]
  · refine ⟨?_, ?_, ?_, ?_⟩
    · simp only [deduplicateKillScreensS, if_neg he]
      exact hkeep
    · simp only [deduplicateKillScreensS, if_neg he, hget,
        deduplicateKillScreens, dedupClusters]
    · simp only [analyzeDetectionClustersS, if_neg he]
      exact hkeep
    · simp only [analyzeDetectionClustersS, if_neg he, hget,
        analyzeDetectionClusters, analyzeClusters]

/-- Witness for C10 on a one-array store. -/
theorem claim_C10_no_input_mutation_witness :
    (0 : ℕ) < ([[⟨7, 5, 1⟩]] : Store).length ∧
    (deduplicateKillScreensS [[⟨7, 5, 1⟩]] 0 2 2).1.getD 0 [] =
      ([[⟨7, 5, 1⟩]] : Store).getD 0 [] :=
  ⟨by norm_num,
   (claim_C10_no_input_mutation [[⟨7, 5, 1⟩]] 0 2 2 (by norm_num)).1⟩

/-- The cluster loop of `analyzeDetectionClusters` is the production merge
loop with the window fixed at the literal 2 seconds. -/
theorem analyzeGo_eq_clusterGo :
    ∀ (l : List KST) (last : KST) (cur : List KST),
      analyzeGo last cur l = clusterGo 2 last cur l := by
  intro l
  induction l with
  | nil => intro last cur; rfl
  | cons k rest ih =>
    intro last cur
    simp only [analyzeGo, clusterGo]
    split <;> simp [ih]

/-- The partition of `analyzeDetectionClusters` equals the production
partition at window 2, for every input. -/
theorem analyzeClusters_eq_dedupClusters (ks : List KST) :
    analyzeClusters ks = dedupClusters 2 ks := by
  unfold analyzeClusters dedupClusters
  cases sortTime ks with
  | nil => rfl
  | cons k rest => exact analyzeGo_eq_clusterGo rest k [k]

/-- C3: for every input, the diagnostic statistics operation computes exactly
the partition that step 2 of `deduplicateKillScreens` produces with the merge
window fixed at 2 seconds — independent of any configured window, which it
does not even receive — and reports that partition's cluster count, mean
cluster size and maximum cluster size. -/
theorem claim_C3_analyze_uses_fixed_two_second_window (ks : List KST) :
    analyzeDetectionClusters ks =
      ⟨(dedupClusters 2 ks).length,
       ((dedupClusters 2 ks).map fun c => (c.length : ℚ)).sum /
         ((dedupClusters 2 ks).length : ℚ),
       ((dedupClusters 2 ks).map List.length).foldl max 0,
       dedupClusters 2 ks⟩ := by
  by_cases hks : ks = []
  · subst hks
    simp [analyzeDetectionClusters, dedupClusters, sortTime, List.insertionSort]
  · simp [analyzeDetectionClusters, hks, analyzeClusters_eq_dedupClusters]

/-- Rearrangement of the fourth sub-score in terms of the raw coverage. -/
theorem nonRedAreaScore_eq_raw (data : List ℕ) (w h c : ℕ) :
    nonRedAreaScore data w h c =
      max 0 (1 - 3 * (1 - globalRedCoverage data w h c)) := by
  unfold nonRedAreaScore nonRedArea
  congr 1
  ring

/-- C4 (amended): the fourth sub-score is
`max(0, 1 − 3·(1 − rawCoverage))` for the raw, unsaturated coverage
`totalRedPixels / totalPixels` — not for the saturated coverage sub-score. -/
theorem claim_C4_inverse_residual_amended (data : List ℕ) (w h c : ℕ) :
    nonRedAreaScore data w h c =
      max 0 (1 - 3 * (1 - globalRedCoverage data w h c)) :=
  nonRedAreaScore_eq_raw data w h c

/-- The 3×3, 3-channel buffer whose first four pixels are pure red and whose
other five pixels are black: raw coverage 4/9. -/
def bufFourNinths : List ℕ :=
  [255, 0, 0, 255, 0, 0, 255, 0, 0, 255, 0, 0, 0, 0, 0, 0, 0, 0, 0, 0, 0,
   0, 0, 0, 0, 0, 0]

/-- C4 counterexample: on the 4/9-coverage buffer the code's fourth sub-score
is 0, while the claim's formula — built from the saturated coverage sub-score
`min(1, 2·coverage)` — gives 2/3. -/
theorem claim_C4_counterexample :
    nonRedAreaScore bufFourNinths 3 3 3 = 0 ∧
    max 0 (1 - 3 * (1 - globalRedCoverageScore bufFourNinths 3 3 3)) = 2/3 := by
  have htr : totalRedPixels bufFourNinths 3 3 3 = 4 := by decide
  constructor
  · rw [nonRedAreaScore_eq_raw]
    rw [globalRedCoverage, htr]
    norm_num
  · rw [globalRedCoverageScore, globalRedCoverage, htr]
    norm_num

/-- A pixel column lies in at most one column band of the 3×3 grid. -/
theorem cell_index_eq {cw b i j x : ℕ}
    (hi : x ∈ Finset.Ico (i * cw) (min (i * cw + cw) b))
    (hj : x ∈ Finset.Ico (j * cw) (min (j * cw + cw) b)) : i = j := by
  simp only [Finset.mem_Ico] at hi hj
  by_contra hne
  rcases Nat.lt_or_ge i j with hlt | hge
  · have hmul : i * cw + cw ≤ j * cw := by
      have h1 : (i + 1) * cw ≤ j * cw := Nat.mul_le_mul_right cw hlt
      calc i * cw + cw = (i + 1) * cw := by ring
        _ ≤ j * cw := h1
    omega
  · have hlt2 : j < i := lt_of_le_of_ne hge fun e => hne e.symm
    have hmul : j * cw + cw ≤ i * cw := by
      have h1 : (j + 1) * cw ≤ i * cw := Nat.mul_le_mul_right cw hlt2
      calc j * cw + cw = (j + 1) * cw := by ring
        _ ≤ i * cw := h1
    omega

/-- Distinct grid cells visit disjoint pixel sets. -/
theorem cellPixels_pairwise_disjoint (w h : ℕ) :
    ∀ g ∈ grid, ∀ g2 ∈ grid, g ≠ g2 →
      Disjoint (cellPixels w h g.1 g.2) (cellPixels w h g2.1 g2.2) := by
  intro g _ g2 _ hne
  rw [Finset.disjoint_left]
  intro p hp hp2
  rw [cellPixels, Finset.mem_product] at hp hp2
  exact hne (Prod.ext_iff.mpr
    ⟨cell_index_eq hp.1 hp2.1, cell_index_eq hp.2 hp2.2⟩)

/-- Every visited pixel lies inside the frame. -/
theorem cellPixels_subset (w h gX gY : ℕ) :
    cellPixels w h gX gY ⊆ Finset.range w ×ˢ Finset.range h := by
  intro p hp
  rw [cellPixels, Finset.mem_product] at hp
  rw [Finset.mem_product, Finset.mem_range, Finset.mem_range]
  have h1 := (Finset.mem_Ico.mp hp.1).2
  have h2 := (Finset.mem_Ico.mp hp.2).2
  omega

/-- The dominant-pixel count never exceeds the pixel count of the frame. -/
theorem totalRedPixels_le (data : List ℕ) (w h c : ℕ) :
    totalRedPixels data w h c ≤ w * h := by
  have h1 : totalRedPixels data w h c ≤ ∑ g in grid, cellTotalPixels w h g.1 g.2 := by
    unfold totalRedPixels cellRedPixels cellTotalPixels
    exact Finset.sum_le_sum fun g _ => Finset.card_filter_le _ _
  have h2 : ∑ g in grid, cellTotalPixels w h g.1 g.2 =
      (grid.biUnion fun g => cellPixels w h g.1 g.2).card := by
    unfold cellTotalPixels
    exact (Finset.card_biUnion (cellPixels_pairwise_disjoint w h)).symm
  have h3 : (grid.biUnion fun g => cellPixels w h g.1 g.2).card ≤
      (Finset.range w ×ˢ Finset.range h).card := by
    apply Finset.card_le_card
    intro p hp
    rw [Finset.mem_biUnion] at hp
    obtain ⟨g, -, hpg⟩ := hp
    exact cellPixels_subset w h g.1 g.2 hpg
  have h4 : (Finset.range w ×ˢ Finset.range h).card = w * h := by
    simp
  omega

/-- The raw coverage is nonnegative. -/
theorem globalRedCoverage_nonneg (data : List ℕ) (w h c : ℕ) :
    0 ≤ globalRedCoverage data w h c :=
  div_nonneg (Nat.cast_nonneg _) (Nat.cast_nonneg _)

/-- The raw coverage of a nonempty frame is at most one. -/
theorem globalRedCoverage_le_one (data : List ℕ) (w h c : ℕ)
    (hw : 1 ≤ w) (hh : 1 ≤ h) : globalRedCoverage data w h c ≤ 1 := by
  unfold globalRedCoverage
  rw [div_le_one (by exact_mod_cast Nat.mul_pos hw hh)]
  exact_mod_cast totalRedPixels_le data w h c

/-- The uniformity numerator counts at most the nine grid cells. -/
theorem redCellCount_le_nine (data : List ℕ) (w h c : ℕ) :
    redCellCount data w h c ≤ 9 := by
  unfold redCellCount
  calc (grid.filter fun g => (3 : ℚ)/10 < cellRedFrac data w h c g.1 g.2).card
      ≤ grid.card := Finset.card_filter_le _ _
    _ = 9 := by decide

/-- The average dominance margin is nonnegative. -/
theorem avgRedIntensity_nonneg (data : List ℕ) (w h c : ℕ) :
    0 ≤ avgRedIntensity data w h c := by
  unfold avgRedIntensity
  split
  · exact div_nonneg (Nat.cast_nonneg _) (Nat.cast_nonneg _)
  · exact le_refl 0

/-- C1: for every buffer and declared geometry with at least one pixel and at
least three channels, the confidence `killScore` of `detectGlobalRed` lies in
the closed interval from 0 to 1. -/
theorem claim_C1_confidence_bounded (data : List ℕ) (w h c : ℕ)
    (hw : 1 ≤ w) (hh : 1 ≤ h) (hc : 3 ≤ c) :
    0 ≤ killScore data w h c ∧ killScore data w h c ≤ 1 := by
  have hcov0 := globalRedCoverage_nonneg data w h c
  have hcov1 := globalRedCoverage_le_one data w h c hw hh
  have ha0 : 0 ≤ globalRedCoverageScore data w h c :=
    le_min zero_le_one (by linarith)
  have ha1 : globalRedCoverageScore data w h c ≤ 1 := min_le_left _ _
  have hb0 : 0 ≤ redUniformityScore data w h c :=
    div_nonneg (Nat.cast_nonneg _) (by norm_num)
  have hb1 : redUniformityScore data w h c ≤ 1 := by
    unfold redUniformityScore
    rw [div_le_one (by norm_num)]
    exact_mod_cast redCellCount_le_nine data w h c
  have hd0 : 0 ≤ avgRedIntensity data w h c := avgRedIntensity_nonneg data w h c
  have hc0 : 0 ≤ redIntensityScore data w h c :=
    le_min zero_le_one (div_nonneg hd0 (by norm_num))
  have hc1 : redIntensityScore data w h c ≤ 1 := min_le_left _ _
  have he0 : 0 ≤ nonRedAreaScore data w h c := le_max_left _ _
  have he1 : nonRedAreaScore data w h c ≤ 1 := by
    unfold nonRedAreaScore nonRedArea
    exact max_le zero_le_one (by linarith)
  unfold killScore
  constructor
  · linarith
  · linarith

/-- Witness for C1 on a one-pixel three-channel buffer. -/
theorem claim_C1_confidence_bounded_witness :
    ((1 : ℕ) ≤ 1 ∧ (1 : ℕ) ≤ 1 ∧ (3 : ℕ) ≤ 3) ∧
    (0 ≤ killScore [255, 0, 0] 1 1 3 ∧ killScore [255, 0, 0] 1 1 3 ≤ 1) :=
  ⟨⟨le_refl 1, le_refl 1, le_refl 3⟩,
   claim_C1_confidence_bounded [255, 0, 0] 1 1 3 (le_refl 1) (le_refl 1)
     (le_refl 3)⟩

/-- When 3 divides the width, the clamp in a cell's column range is inactive. -/
theorem grid_min_eq (w : ℕ) (h3w : 3 ∣ w) {gX : ℕ} (hg : gX < 3) :
    min (gX * (w / 3) + w / 3) w = gX * (w / 3) + w / 3 := by
  apply min_eq_left
  have hw3 : 3 * (w / 3) = w := Nat.mul_div_cancel' h3w
  have he : gX * (w / 3) + w / 3 = (gX + 1) * (w / 3) := by ring
  rw [he]
  calc (gX + 1) * (w / 3) ≤ 3 * (w / 3) := Nat.mul_le_mul_right _ hg
    _ = w := hw3

/-- Cell pixel sets without the clamp, in the divisible case. -/
theorem cellPixels_of_dvd (w h : ℕ) (h3w : 3 ∣ w) (h3h : 3 ∣ h)
    {gX gY : ℕ} (hgX : gX < 3) (hgY : gY < 3) :
    cellPixels w h gX gY =
      Finset.Ico (gX * (w / 3)) (gX * (w / 3) + w / 3) ×ˢ
        Finset.Ico (gY * (h / 3)) (gY * (h / 3) + h / 3) := by
  unfold cellPixels
  rw [grid_min_eq w h3w hgX, grid_min_eq h h3h hgY]

/-- Every cell visits exactly `cellWidth * cellHeight` pixels in the divisible
case. -/
theorem cellPixels_card_of_dvd (w h : ℕ) (h3w : 3 ∣ w) (h3h : 3 ∣ h)
    {gX gY : ℕ} (hgX : gX < 3) (hgY : gY < 3) :
    (cellPixels w h gX gY).card = (w / 3) * (h / 3) := by
  rw [cellPixels_of_dvd w h h3w h3h hgX hgY, Finset.card_product,
    Nat.card_Ico, Nat.card_Ico, Nat.add_sub_cancel_left, Nat.add_sub_cancel_left]

/-- The same pixel count, phrased for `cellTotalPixels`. -/
theorem cellTotalPixels_of_dvd (w h : ℕ) (h3w : 3 ∣ w) (h3h : 3 ∣ h)
    {gX gY : ℕ} (hgX : gX < 3) (hgY : gY < 3) :
    cellTotalPixels w h gX gY = (w / 3) * (h / 3) := by
  unfold cellTotalPixels
  exact cellPixels_card_of_dvd w h h3w h3h hgX hgY

/-- On an all-dominant buffer every visited pixel passes the dominance test. -/
theorem redAt_of_all_red (data : List ℕ) (w h c : ℕ)
    (hred : ∀ x, x < w → ∀ y, y < h →
      data.getD ((y * w + x) * c) 0 = 255 ∧
      data.getD ((y * w + x) * c + 1) 0 = 0 ∧
      data.getD ((y * w + x) * c + 2) 0 = 0)
    {gX gY : ℕ} :
    ∀ p ∈ cellPixels w h gX gY, redAt data w c p.1 p.2 = true := by
  intro p hp
  have hsub := cellPixels_subset w h gX gY hp
  rw [Finset.mem_product, Finset.mem_range, Finset.mem_range] at hsub
  obtain ⟨h1, h2, h3⟩ := hred p.1 hsub.1 p.2 hsub.2
  unfold redAt
  rw [h1, h2, h3]
  rfl

/-- On an all-dominant buffer each cell's dominant count is its pixel count. -/
theorem cellRedPixels_of_all_red (data : List ℕ) (w h c : ℕ)
    (h3w : 3 ∣ w) (h3h : 3 ∣ h)
    (hred : ∀ x, x < w → ∀ y, y < h →
      data.getD ((y * w + x) * c) 0 = 255 ∧
      data.getD ((y * w + x) * c + 1) 0 = 0 ∧
      data.getD ((y * w + x) * c + 2) 0 = 0)
    {gX gY : ℕ} (hgX : gX < 3) (hgY : gY < 3) :
    cellRedPixels data w h c gX gY = (w / 3) * (h / 3) := by
  unfold cellRedPixels
  rw [Finset.filter_true_of_mem (redAt_of_all_red data w h c hred)]
  exact cellTotalPixels_of_dvd w h h3w h3h hgX hgY

/-- On an all-dominant buffer with divisible dimensions the dominant count is
the whole frame. -/
theorem totalRedPixels_of_all_red (data : List ℕ) (w h c : ℕ)
    (h3w : 3 ∣ w) (h3h : 3 ∣ h)
    (hred : ∀ x, x < w → ∀ y, y < h →
      data.getD ((y * w + x) * c) 0 = 255 ∧
      data.getD ((y * w + x) * c + 1) 0 = 0 ∧
      data.getD ((y * w + x) * c + 2) 0 = 0) :
    totalRedPixels data w h c = w * h := by
  unfold totalRedPixels
  have hterm : ∀ g ∈ grid, cellRedPixels data w h c g.1 g.2 = (w / 3) * (h / 3) := by
    intro g hg
    rw [grid, Finset.mem_product, Finset.mem_range, Finset.mem_range] at hg
    exact cellRedPixels_of_all_red data w h c h3w h3h hred hg.1 hg.2
  rw [Finset.sum_congr rfl hterm, Finset.sum_const]
  have hcard : grid.card = 9 := by decide
  rw [hcard, smul_eq_mul]
  have hw3 : 3 * (w / 3) = w := Nat.mul_div_cancel' h3w
  have hh3 : 3 * (h / 3) = h := Nat.mul_div_cancel' h3h
  calc 9 * ((w / 3) * (h / 3)) = (3 * (w / 3)) * (3 * (h / 3)) := by ring
    _ = w * h := by rw [hw3, hh3]

/-- On an all-dominant buffer every dominance margin is 255. -/
theorem cellRedIntensity_of_all_red (data : List ℕ) (w h c : ℕ)
    (h3w : 3 ∣ w) (h3h : 3 ∣ h)
    (hred : ∀ x, x < w → ∀ y, y < h →
      data.getD ((y * w + x) * c) 0 = 255 ∧
      data.getD ((y * w + x) * c + 1) 0 = 0 ∧
      data.getD ((y * w + x) * c + 2) 0 = 0)
    {gX gY : ℕ} (hgX : gX < 3) (hgY : gY < 3) :
    cellRedIntensity data w h c gX gY = 255 * ((w / 3) * (h / 3)) := by
  unfold cellRedIntensity
  rw [Finset.filter_true_of_mem (redAt_of_all_red data w h c hred)]
  have hterm : ∀ p ∈ cellPixels w h gX gY, redIntensityAt data w c p.1 p.2 = 255 := by
    intro p hp
    have hsub := cellPixels_subset w h gX gY hp
    rw [Finset.mem_product, Finset.mem_range, Finset.mem_range] at hsub
    obtain ⟨h1, h2, h3⟩ := hred p.1 hsub.1 p.2 hsub.2
    unfold redIntensityAt
    rw [h1, h2, h3]
    rfl
  rw [Finset.sum_congr rfl hterm, Finset.sum_const]
  rw [cellPixels_card_of_dvd w h h3w h3h hgX hgY]
  rw [smul_eq_mul, Nat.mul_comm]

/-- Total dominance margin of an all-dominant buffer. -/
theorem totalRedIntensity_of_all_red (data : List ℕ) (w h c : ℕ)
    (h3w : 3 ∣ w) (h3h : 3 ∣ h)
    (hred : ∀ x, x < w → ∀ y, y < h →
      data.getD ((y * w + x) * c) 0 = 255 ∧
      data.getD ((y * w + x) * c + 1) 0 = 0 ∧
      data.getD ((y * w + x) * c + 2) 0 = 0) :
    totalRedIntensity data w h c = 255 * (w * h) := by
  unfold totalRedIntensity
  have hterm : ∀ g ∈ grid,
      cellRedIntensity data w h c g.1 g.2 = 255 * ((w / 3) * (h / 3)) := by
    intro g hg
    rw [grid, Finset.mem_product, Finset.mem_range, Finset.mem_range] at hg
    exact cellRedIntensity_of_all_red data w h c h3w h3h hred hg.1 hg.2
  rw [Finset.sum_congr rfl hterm, Finset.sum_const]
  have hcard : grid.card = 9 := by decide
  rw [hcard, smul_eq_mul]
  have hw3 : 3 * (w / 3) = w := Nat.mul_div_cancel' h3w
  have hh3 : 3 * (h / 3) = h := Nat.mul_div_cancel' h3h
  calc 9 * (255 * ((w / 3) * (h / 3)))
      = 255 * ((3 * (w / 3)) * (3 * (h / 3))) := by ring
    _ = 255 * (w * h) := by rw [hw3, hh3]

/-- C5 (amended): on a buffer in which every pixel is pure dominant
(255, 0, 0), the coverage sub-score, the uniformity sub-score and the final
confidence are all exactly 1 — provided the width and height are multiples of
3, so that the 3×3 grid covers the frame exactly (otherwise the ungridded
margin is never scanned and the scores fall short, see the counterexample). -/
theorem claim_C5_all_red_scores_one (data : List ℕ) (w h c : ℕ)
    (hw : 1 ≤ w) (hh : 1 ≤ h) (h3w : 3 ∣ w) (h3h : 3 ∣ h)
    (hred : ∀ x, x < w → ∀ y, y < h →
      data.getD ((y * w + x) * c) 0 = 255 ∧
      data.getD ((y * w + x) * c + 1) 0 = 0 ∧
      data.getD ((y * w + x) * c + 2) 0 = 0) :
    globalRedCoverageScore data w h c = 1 ∧
    redUniformityScore data w h c = 1 ∧
    killScore data w h c = 1 := by
  have hwpos : 0 < w * h := Nat.mul_pos hw hh
  have hwh : ((w * h : ℕ) : ℚ) ≠ 0 := by exact_mod_cast hwpos.ne'
  have htot : totalRedPixels data w h c = w * h :=
    totalRedPixels_of_all_red data w h c h3w h3h hred
  have hcov : globalRedCoverage data w h c = 1 := by
    unfold globalRedCoverage
    rw [htot]
    exact div_self hwh
  have hcovS : globalRedCoverageScore data w h c = 1 := by
    unfold globalRedCoverageScore
    rw [hcov]
    norm_num
  have hcw : 0 < w / 3 := Nat.div_pos (Nat.le_of_dvd hw h3w) (by norm_num)
  have hch : 0 < h / 3 := Nat.div_pos (Nat.le_of_dvd hh h3h) (by norm_num)
  have hcellpos : 0 < (w / 3) * (h / 3) := Nat.mul_pos hcw hch
  have hfrac : ∀ g ∈ grid, cellRedFrac data w h c g.1 g.2 = 1 := by
    intro g hg
    rw [grid, Finset.mem_product, Finset.mem_range, Finset.mem_range] at hg
    unfold cellRedFrac
    rw [cellRedPixels_of_all_red data w h c h3w h3h hred hg.1 hg.2,
      cellTotalPixels_of_dvd w h h3w h3h hg.1 hg.2, if_pos hcellpos]
    exact div_self (by exact_mod_cast hcellpos.ne')
  have hcount : redCellCount data w h c = 9 := by
    unfold redCellCount
    rw [Finset.filter_true_of_mem]
    · decide
    · intro g hg
      rw [hfrac g hg]
      norm_num
  have hunif : redUniformityScore data w h c = 1 := by
    unfold redUniformityScore
    rw [hcount]
    norm_num
  have havg : avgRedIntensity data w h c = 255 := by
    unfold avgRedIntensity
    rw [totalRedIntensity_of_all_red data w h c h3w h3h hred, htot, if_pos hwpos]
    push_cast
    rw [mul_div_assoc, div_self (by exact_mod_cast hwpos.ne'), mul_one]
  have hint : redIntensityScore data w h c = 1 := by
    unfold redIntensityScore
    rw [havg]
    norm_num
  have hnra : nonRedAreaScore data w h c = 1 := by
    unfold nonRedAreaScore nonRedArea
    rw [hcov]
    norm_num
  refine ⟨hcovS, hunif, ?_⟩
  unfold killScore
  rw [hcovS, hunif, hint, hnra]
  norm_num

/-- The all-red 3×3, 3-channel buffer. -/
def bufAllRed3x3 : List ℕ :=
  [255, 0, 0, 255, 0, 0, 255, 0, 0, 255, 0, 0, 255, 0, 0, 255, 0, 0,
   255, 0, 0, 255, 0, 0, 255, 0, 0]

/-- Witness for C5 (amended) on the all-red 3×3 buffer. -/
theorem claim_C5_all_red_scores_one_witness :
    globalRedCoverageScore bufAllRed3x3 3 3 3 = 1 ∧
    redUniformityScore bufAllRed3x3 3 3 3 = 1 ∧
    killScore bufAllRed3x3 3 3 3 = 1 :=
  claim_C5_all_red_scores_one bufAllRed3x3 3 3 3 (by norm_num) (by norm_num)
    (by norm_num) (by norm_num) (by decide)

/-- With width and height below 3 the integer cell size is zero and no pixel
is ever visited. -/
theorem cellPixels_one_empty (gX gY : ℕ) : cellPixels 1 1 gX gY = ∅ := by
  unfold cellPixels
  have h13 : (1 : ℕ) / 3 = 0 := by norm_num
  rw [h13]
  simp

/-- If no cell contains a dominant pixel the final confidence is zero. -/
theorem killScore_of_no_red (data : List ℕ) (w h c : ℕ)
    (hcell : ∀ gX gY, cellRedPixels data w h c gX gY = 0) :
    killScore data w h c = 0 := by
  have htot : totalRedPixels data w h c = 0 := by
    unfold totalRedPixels
    exact Finset.sum_eq_zero fun g _ => hcell g.1 g.2
  have hcov : globalRedCoverage data w h c = 0 := by
    unfold globalRedCoverage
    rw [htot]
    simp
  have hfrac : ∀ gX gY, cellRedFrac data w h c gX gY = 0 := by
    intro gX gY
    unfold cellRedFrac
    split
    · rw [hcell gX gY]
      simp
    · rfl
  have hcount : redCellCount data w h c = 0 := by
    unfold redCellCount
    rw [Finset.filter_false_of_mem, Finset.card_empty]
    intro g _
    rw [hfrac g.1 g.2]
    norm_num
  have havg : avgRedIntensity data w h c = 0 := by
    unfold avgRedIntensity
    rw [htot]
    simp
  unfold killScore globalRedCoverageScore redUniformityScore redIntensityScore
    nonRedAreaScore nonRedArea
  rw [hcov, hcount, havg]
  norm_num

/-- C5 counterexample: a 1×1 buffer whose single pixel is pure dominant
(255, 0, 0) — all-dominant in the claim's sense for width = height = 1 — gets
coverage sub-score 0 and confidence 0, not 1, because the 3×3 grid with
`cellWidth = floor(1/3) = 0` never visits the pixel. -/
theorem claim_C5_counterexample :
    ([255, 0, 0] : List ℕ).getD 0 0 = 255 ∧
    ([255, 0, 0] : List ℕ).getD 1 0 = 0 ∧
    ([255, 0, 0] : List ℕ).getD 2 0 = 0 ∧
    globalRedCoverageScore [255, 0, 0] 1 1 3 = 0 ∧
    killScore [255, 0, 0] 1 1 3 = 0 := by
  have hcell : ∀ gX gY, cellRedPixels [255, 0, 0] 1 1 3 gX gY = 0 := by
    intro gX gY
    unfold cellRedPixels
    rw [cellPixels_one_empty]
    rfl
  have htot : totalRedPixels [255, 0, 0] 1 1 3 = 0 := by
    unfold totalRedPixels
    exact Finset.sum_eq_zero fun g _ => hcell g.1 g.2
  refine ⟨rfl, rfl, rfl, ?_, killScore_of_no_red [255, 0, 0] 1 1 3 hcell⟩
  unfold globalRedCoverageScore globalRedCoverage
  rw [htot]
  norm_num

/-- The scorer applied to an empty buffer: every read is out of range, no
pixel is dominant, and the call returns score 0 and a non-event — it does not
fail. -/
theorem detectGlobalRed_nil (w h c : ℕ) :
    detectGlobalRed [] w h c = ⟨false, 0⟩ := by
  have hcell : ∀ gX gY, cellRedPixels [] w h c gX gY = 0 := by
    intro gX gY
    unfold cellRedPixels
    rw [Finset.filter_false_of_mem, Finset.card_empty]
    intro p _
    simp [redAt]
  have hks := killScore_of_no_red [] w h c hcell
  unfold detectGlobalRed
  rw [hks]
  norm_num

/-- C6 (amended): the scoring call performs no buffer-length validation and
has no failure path: a mismatched (here: empty) buffer is scored normally,
with out-of-range reads treated as non-dominant, yielding confidence 0; and
the calling detector does convert any scoring failure into confidence 0 and a
non-event for that single frame, so a failure never aborts the batch. -/
theorem claim_C6_no_malformed_input_failure :
    (∀ w h c : ℕ, detectGlobalRed [] w h c = ⟨false, 0⟩) ∧
    (∀ (e : String) (fn : ℕ),
      detectKillScreen (Except.error e) fn = ⟨false, 0, fn⟩) :=
  ⟨detectGlobalRed_nil, fun _ _ => rfl⟩

/-- C6 counterexample: on a buffer whose length 0 differs from
width×height×channels = 27 the scoring call succeeds with a normal result
(score 0, non-event) instead of failing with a MalformedInput condition. -/
theorem claim_C6_counterexample :
    ([] : List ℕ).length ≠ 3 * 3 * 3 ∧
    detectGlobalRed [] 3 3 3 = ⟨false, 0⟩ :=
  ⟨by norm_num, detectGlobalRed_nil 3 3 3⟩

/-- The representative reducer picks an element of the cluster. -/
theorem chooseBetter_foldl_mem :
    ∀ (t : List KST) (h : KST), t.foldl chooseBetter h ∈ h :: t := by
  intro t
  induction t with
  | nil => intro h; simp
  | cons k rest ih =>
    intro h
    have hmem := ih (chooseBetter h k)
    simp only [List.foldl_cons]
    rcases List.mem_cons.mp hmem with he | hr
    · rw [he]
      unfold chooseBetter
      split
      · simp
      · simp
    · simp [hr]

/-- An emitted record carries the timestamp of a member of its cluster. -/
theorem clusterPick_time {minSize : ℕ} {c : List KST} {x : KST}
    (hp : clusterPick minSize c = some x) :
    ∃ y ∈ c, x.timeInSeconds = y.timeInSeconds := by
  cases c with
  | nil => exact absurd hp (by simp [clusterPick])
  | cons h t =>
    simp only [clusterPick] at hp
    by_cases hlen : minSize ≤ (h :: t).length
    · rw [if_pos hlen] at hp
      have hx := Option.some.inj hp
      refine ⟨t.foldl chooseBetter h, chooseBetter_foldl_mem t h, ?_⟩
      rw [← hx]
    · rw [if_neg hlen] at hp
      exact absurd hp (by simp)

/-- Every record emitted from the tail of the merge loop carries the
timestamp of some sample of the current cluster or the remaining input. -/
theorem clusterGo_reps_time {win : ℚ} {minSize : ℕ} :
    ∀ (l cur : List KST) (last : KST) (x : KST),
      x ∈ (clusterGo win last cur l).filterMap (clusterPick minSize) →
      ∃ z ∈ cur ++ l, x.timeInSeconds = z.timeInSeconds := by
  intro l
  induction l with
  | nil =>
    intro cur last x hx
    rw [clusterGo, List.mem_filterMap] at hx
    obtain ⟨a, ha, hfa⟩ := hx
    rw [List.mem_singleton] at ha
    subst ha
    obtain ⟨y, hy, ht⟩ := clusterPick_time hfa
    exact ⟨y, by simpa using hy, ht⟩
  | cons k rest ih =>
    intro cur last x hx
    have hmv : ∀ z : KST, z ∈ ([k] ++ rest : List KST) → z ∈ cur ++ k :: rest := by
      intro z hz
      exact List.mem_append_right _ (by simpa using hz)
    rw [clusterGo] at hx
    by_cases hgap : win < k.timeInSeconds - last.timeInSeconds
    · rw [if_pos hgap, List.filterMap_cons] at hx
      cases hpick : clusterPick minSize cur with
      | none =>
        rw [hpick] at hx
        obtain ⟨z, hz, ht⟩ := ih [k] k x hx
        exact ⟨z, hmv z hz, ht⟩
      | some r =>
        rw [hpick] at hx
        rcases List.mem_cons.mp hx with hxr | hx2
        · subst hxr
          obtain ⟨y, hy, ht⟩ := clusterPick_time hpick
          exact ⟨y, List.mem_append_left _ hy, ht⟩
        · obtain ⟨z, hz, ht⟩ := ih [k] k x hx2
          exact ⟨z, hmv z hz, ht⟩
    · rw [if_neg hgap] at hx
      obtain ⟨z, hz, ht⟩ := ih (cur ++ [k]) k x hx
      refine ⟨z, ?_, ht⟩
      rw [List.append_assoc] at hz
      simpa using hz

/-- Records emitted by the merge loop on a time-sorted input are separated by
more than the merge window: each new cluster starts more than `win` seconds
after the previous cluster's end, and each representative lies inside its
cluster's time range. -/
theorem clusterGo_chain {win : ℚ} {minSize : ℕ} :
    ∀ (l cur : List KST) (last : KST),
      last ∈ cur →
      (∀ x ∈ cur, x.timeInSeconds ≤ last.timeInSeconds) →
      (cur ++ l).Pairwise timeLE →
      List.Chain' (sepGT win)
        ((clusterGo win last cur l).filterMap (clusterPick minSize)) := by
  intro l
  induction l with
  | nil =>
    intro cur last _ _ _
    rw [clusterGo]
    cases hpick : clusterPick minSize cur with
    | none => simp [List.filterMap_cons, hpick]
    | some r => simp [List.filterMap_cons, hpick]
  | cons k rest ih =>
    intro cur last hlast hbound hpw
    have hpw_tail : (([k] ++ rest : List KST)).Pairwise timeLE := by
      have hs : List.Sublist (k :: rest) (cur ++ k :: rest) :=
        List.sublist_append_right _ _
      simpa using hpw.sublist hs
    rw [clusterGo]
    by_cases hgap : win < k.timeInSeconds - last.timeInSeconds
    · rw [if_pos hgap, List.filterMap_cons]
      cases hpick : clusterPick minSize cur with
      | none =>
        exact ih [k] k (List.mem_singleton_self k) (by simp) hpw_tail
      | some r =>
        rw [List.chain'_cons']
        constructor
        · intro y hy
          have hy2 : y ∈ (clusterGo win k [k] rest).filterMap (clusterPick minSize) :=
            List.mem_of_mem_head? hy
          obtain ⟨z, hz, hty⟩ := clusterGo_reps_time rest [k] k y hy2
          obtain ⟨yc, hyc, htr⟩ := clusterPick_time hpick
          have h1 : r.timeInSeconds ≤ last.timeInSeconds := htr ▸ hbound yc hyc
          have h2 : k.timeInSeconds ≤ z.timeInSeconds := by
            rcases List.mem_append.mp hz with h3 | h3
            · rw [List.mem_singleton] at h3
              subst h3
              exact le_refl _
            · exact (List.pairwise_cons.mp (by simpa using hpw_tail)).1 z h3
          unfold sepGT
          rw [hty]
          linarith
        · exact ih [k] k (List.mem_singleton_self k) (by simp) hpw_tail
    · rw [if_neg hgap]
      have hlk : last.timeInSeconds ≤ k.timeInSeconds :=
        (List.pairwise_append.mp hpw).2.2 last hlast k (List.mem_cons_self k rest)
      apply ih (cur ++ [k]) k
      · exact List.mem_append_right _ (List.mem_singleton_self k)
      · intro x hx
        rcases List.mem_append.mp hx with h1 | h1
        · exact le_trans (hbound x h1) hlk
        · rw [List.mem_singleton] at h1
          subst h1
          exact le_refl _
      · rw [List.append_assoc]
        simpa using hpw

/-- Consecutive output records of `deduplicateKillScreens` are separated by
more than the merge window. -/
theorem dedup_chain (ks : List KST) (win : ℚ) (minSize : ℕ) :
    List.Chain' (sepGT win) (deduplicateKillScreens ks win minSize) := by
  unfold deduplicateKillScreens
  by_cases hks : ks = []
  · simp [hks]
  · rw [if_neg hks]
    unfold dedupClusters
    have hsorted : (sortTime ks).Pairwise timeLE := List.sorted_insertionSort timeLE ks
    cases hs : sortTime ks with
    | nil => simp
    | cons k rest =>
      rw [hs] at hsorted
      exact clusterGo_chain rest [k] k (List.mem_singleton_self k) (by simp)
        (by simpa using hsorted)

/-- A list whose consecutive gaps exceed a nonnegative window is already
time-sorted, so the defensive sort leaves it unchanged. -/
theorem sortTime_eq_of_chain {win : ℚ} {l : List KST} (hwin : 0 ≤ win)
    (hc : List.Chain' (sepGT win) l) : sortTime l = l := by
  apply List.Sorted.insertionSort_eq
  have h2 : List.Chain' timeLE l := by
    refine hc.imp ?_
    intro a b hab
    unfold sepGT at hab
    unfold timeLE
    linarith
  exact List.chain'_iff_pairwise.mp h2

/-- The merge loop on a window-separated list produces only singleton
clusters. -/
theorem clusterGo_of_sep {win : ℚ} :
    ∀ (l : List KST) (last : KST) (cur : List KST),
      List.Chain' (sepGT win) (last :: l) →
      clusterGo win last cur l = cur :: l.map (fun x => [x]) := by
  intro l
  induction l with
  | nil => intro last cur _; rfl
  | cons k rest ih =>
    intro last cur hc
    rw [clusterGo]
    have h1 : win < k.timeInSeconds - last.timeInSeconds :=
      (List.chain'_cons.mp hc).1
    rw [if_pos h1, ih k [k] (List.chain'_cons.mp hc).2]
    rfl

/-- C8: re-running the clusterer on its own output with the same window and
minimum cluster size 1, every cluster formed by the merge step is a
singleton, so no two output records — in particular none whose timestamps
differ by more than the window — are ever merged into one record. -/
theorem claim_C8_rerun_never_merges (ks : List KST) (win : ℚ) (minSize : ℕ)
    (hwin : 0 < win) :
    ∀ c ∈ dedupClusters win (deduplicateKillScreens ks win minSize),
      ∀ a ∈ c, ∀ b ∈ c, b.timeInSeconds - a.timeInSeconds ≤ win := by
  have hchain := dedup_chain ks win minSize
  have hsort : sortTime (deduplicateKillScreens ks win minSize) =
      deduplicateKillScreens ks win minSize :=
    sortTime_eq_of_chain (le_of_lt hwin) hchain
  have hclusters : dedupClusters win (deduplicateKillScreens ks win minSize) =
      (deduplicateKillScreens ks win minSize).map fun x => [x] := by
    unfold dedupClusters
    rw [hsort]
    cases hOut : deduplicateKillScreens ks win minSize with
    | nil => rfl
    | cons k rest =>
      rw [hOut] at hchain
      show clusterGo win k [k] rest = _
      rw [clusterGo_of_sep rest k [k] hchain]
      rfl
  intro c hc a ha b hb
  rw [hclusters] at hc
  obtain ⟨x, -, rfl⟩ := List.mem_map.mp hc
  rw [List.mem_singleton] at ha hb
  subst ha
  subst hb
  simpa using le_of_lt hwin

/-- Witness for C8 on a two-event input 10 seconds apart with window 2. -/
theorem claim_C8_rerun_never_merges_witness :
    (0 : ℚ) < 2 ∧
    ([⟨1, 0, 13/25⟩] : List KST) ∈
      dedupClusters 2 (deduplicateKillScreens [⟨1, 0, 1/2⟩, ⟨2, 10, 1/2⟩] 2 1) ∧
    (⟨1, 0, 13/25⟩ : KST).timeInSeconds - (⟨1, 0, 13/25⟩ : KST).timeInSeconds ≤ 2 := by
  refine ⟨by norm_num, ?_, ?_⟩
  · norm_num [deduplicateKillScreens, dedupClusters, sortTime, List.insertionSort,
      List.orderedInsert, timeLE, clusterGo, clusterPick, chooseBetter,
      continuityBonus, List.filterMap_cons, List.foldl, List.cons_ne_nil]
  · exact claim_C8_rerun_never_merges [⟨1, 0, 1/2⟩, ⟨2, 10, 1/2⟩] 2 1 (by norm_num)
      [⟨1, 0, 13/25⟩]
      (by norm_num [deduplicateKillScreens, dedupClusters, sortTime,
        List.insertionSort, List.orderedInsert, timeLE, clusterGo, clusterPick,
        chooseBetter, continuityBonus, List.filterMap_cons, List.foldl,
        List.cons_ne_nil])
      ⟨1, 0, 13/25⟩ (List.mem_singleton_self _)
      ⟨1, 0, 13/25⟩ (List.mem_singleton_self _)
